import Mathlib

/-!
Shallow embedding of the language-model training notebook
`transformer_tutorial_from_pytorch.ipynb` (repository
`chenfei0328/Attention-Based-Models`), together with proofs of the
specified properties of its batching, masking, scheduling and
evaluation logic.

Conventions: a tensor of token ids of shape `timesteps × batch_columns`
is a `List (List Nat)` of rows; machine floats that only ever hold the
values `0`, `1` and `-inf` are modelled by the inductive type `MaskVal`;
learning rates and losses are modelled by rationals, with the Python
float `inf` used to initialise `best_val_loss` modelled by `⊤ : WithTop ℚ`;
the genuinely real-valued positional-encoding table is modelled over `ℝ`.
-/

namespace AttnTutorial

/-- A token matrix: a list of rows (timesteps); each row lists the token id
of every batch column at that timestep. -/
abbrev TokenMatrix := List (List Nat)

/-- `batchify(data, bsz)` from the notebook:
`nbatch = data.size(0) // bsz`; `data.narrow(0, 0, nbatch * bsz)` keeps the
first `nbatch * bsz` tokens; `data.view(bsz, -1)` makes `bsz` rows of
`nbatch` consecutive tokens each; `.t()` transposes, so the result has
`nbatch` rows of width `bsz`. -/
def batchify (data : List Nat) (bsz : Nat) : TokenMatrix :=
  let nbatch := data.length / bsz
  let trimmed := data.take (nbatch * bsz)
  let viewed := (List.range bsz).map fun b => (trimmed.drop (b * nbatch)).take nbatch
  (List.range nbatch).map fun t => (List.range bsz).map fun b => (viewed.getD b []).getD t 0

/-- Value of one causal-mask entry: a finite float (an integer suffices, since
only `0.0` and `1.0` ever occur) or the float `-inf`. -/
inductive MaskVal where
  | val : Int → MaskVal
  | negInf : MaskVal
deriving DecidableEq, Repr

/-- Square matrix builder: `mkMat n f` has entry `f i j` at row `i`, column `j`. -/
def mkMat {α : Type} (n : Nat) (f : Nat → Nat → α) : List (List α) :=
  (List.range n).map fun i => (List.range n).map fun j => f i j

/-- `torch.triu(torch.ones(sz, sz))`: ones on and above the diagonal, zeros
strictly below it. -/
def triuOnes (sz : Nat) : List (List Nat) :=
  mkMat sz fun i j => if i ≤ j then 1 else 0

/-- Elementwise map over a matrix (a torch elementwise operation such as `== 1`
or `.float()`). -/
def matMap {α β : Type} (f : α → β) (m : List (List α)) : List (List β) :=
  m.map fun row => row.map f

/-- `.transpose(0, 1)` of a square `sz × sz` matrix: entry `(i, j)` of the
result is entry `(j, i)` of the argument. -/
def transposeSq {α : Type} (sz : Nat) (d : α) (m : List (List α)) : List (List α) :=
  mkMat sz fun i j => (m.getD j []).getD i d

/-- `m.masked_fill(cond, v)`: where the boolean matrix `cond` holds, replace
the entry by `v`; elsewhere keep it. -/
def masked_fill (m : List (List MaskVal)) (cond : List (List Bool)) (v : MaskVal) :
    List (List MaskVal) :=
  List.zipWith (fun row crow => List.zipWith (fun x c => if c then v else x) row crow) m cond

/-- `TransformerModel._generate_square_subsequent_mask(sz)`:
`mask = (torch.triu(torch.ones(sz, sz)) == 1).transpose(0, 1)` followed by
`mask = mask.float().masked_fill(mask == 0, float(-inf)).masked_fill(mask == 1, float(0.0))`
(both fill conditions refer to the boolean `mask` before the reassignment). -/
def generate_square_subsequent_mask (sz : Nat) : List (List MaskVal) :=
  let boolMask := transposeSq sz false (matMap (fun x => x == 1) (triuOnes sz))
  let floated := matMap (fun b => MaskVal.val (if b then 1 else 0)) boolMask
  let filled0 := masked_fill floated (matMap (fun b => b == false) boolMask) MaskVal.negInf
  masked_fill filled0 (matMap (fun b => b == true) boolMask) (MaskVal.val 0)

/-- The mask-refresh test at the top of `TransformerModel.forward`:
`self.src_mask is None or self.src_mask.size(0) != len(src)`. -/
def refreshTriggered (cache : Option (List (List MaskVal))) (n : Nat) : Bool :=
  match cache with
  | none => true
  | some m => m.length != n

/-- The mask-cache update performed by one `forward` call on an input of
sequence length `n`: rebuild and replace the cached mask exactly when the
refresh test fires, otherwise leave the cache untouched. -/
def forwardMaskUpdate (cache : Option (List (List MaskVal))) (n : Nat) :
    Option (List (List MaskVal)) :=
  if refreshTriggered cache n then some (generate_square_subsequent_mask n) else cache

/-- One `forward` call on the trace state: the cached mask paired with a ghost
observation recording the input length of the most recent call that triggered
a refresh (the program state itself is only the first component). -/
def forwardTrace (s : Option (List (List MaskVal)) × Option Nat) (n : Nat) :
    Option (List (List MaskVal)) × Option Nat :=
  (forwardMaskUpdate s.1 n, if refreshTriggered s.1 n then some n else s.2)

/-- Run a sequence of `forward` calls, given by their input sequence lengths,
starting from a trace state. -/
def runForwards (s : Option (List (List MaskVal)) × Option Nat) (calls : List Nat) :
    Option (List (List MaskVal)) × Option Nat :=
  calls.foldl forwardTrace s

/-- `get_batch(source, i)` from the notebook, with the window size `bptt`
made a parameter: `seq_len = min(bptt, len(source) - 1 - i)`;
`data = source[i : i + seq_len]`;
`target = source[i+1 : i+1+seq_len].view(-1)` (row-major flattening). -/
def get_batch (bptt : Nat) (source : TokenMatrix) (i : Nat) : TokenMatrix × List Nat :=
  let seq_len := min bptt (source.length - 1 - i)
  let data := (source.drop i).take seq_len
  let target := ((source.drop (i + 1)).take seq_len).flatten
  (data, target)

/-- State of the training run (the epoch loop cell of the notebook), for an
abstract model-parameter type `α`. `params` is the parameter vector of the
single live model object; `lr` is the optimizer's learning rate; `bestVal` is
`best_val_loss` (initially the float `inf`, modelled as `⊤ : WithTop ℚ`);
`bestIsModel` records whether `best_model` currently holds a reference to the
live model — in the notebook `best_model = model` stores the object reference
itself (no copy), so the only possible values of `best_model` are `None` and
an alias of `model`. `bestEpoch` is a ghost observation of the epoch at which
`best_model` was last assigned, and `summaries` a ghost count of the per-epoch
summary blocks printed; neither ghost field feeds back into the state. -/
structure RunState (α : Type) where
  params : α
  lr : ℚ
  bestVal : WithTop ℚ
  bestIsModel : Bool
  bestEpoch : Option Nat
  summaries : Nat

/-- One iteration of the epoch loop: `train()` (abstracted as `trainF`, which
may read the current learning rate), `val_loss = evaluate(model, val_data)`
(abstracted as `evalF`, applied to the parameters after this epoch's
training), the unconditional epoch-summary print, the strictly-less
best-model test, and the unconditional `scheduler.step()` (`StepLR` with
`step_size = 1` multiplies the rate by `gamma` once per epoch). -/
def epochStep {α : Type} (trainF : ℚ → α → α) (evalF : α → ℚ) (gamma : ℚ)
    (s : RunState α) (e : Nat) : RunState α :=
  let p := trainF s.lr s.params
  let v := evalF p
  if (v : WithTop ℚ) < s.bestVal then
    { params := p, lr := s.lr * gamma, bestVal := (v : WithTop ℚ),
      bestIsModel := true, bestEpoch := some e, summaries := s.summaries + 1 }
  else
    { params := p, lr := s.lr * gamma, bestVal := s.bestVal,
      bestIsModel := s.bestIsModel, bestEpoch := s.bestEpoch,
      summaries := s.summaries + 1 }

/-- Initial run state: `best_val_loss = float("inf")`, `best_model = None`,
learning rate `lr0`, model parameters `p0`. -/
def initState {α : Type} (lr0 : ℚ) (p0 : α) : RunState α :=
  { params := p0, lr := lr0, bestVal := ⊤, bestIsModel := false,
    bestEpoch := none, summaries := 0 }

/-- `for epoch in range(1, epochs + 1): ...` -/
def runEpochs {α : Type} (trainF : ℚ → α → α) (evalF : α → ℚ) (gamma : ℚ)
    (s : RunState α) (epochs : Nat) : RunState α :=
  (List.range' 1 epochs).foldl (fun st e => epochStep trainF evalF gamma st e) s

/-- Reading `best_model`'s parameters after the run
(`test_loss = evaluate(best_model, test_data)`): `best_model` is either `None`
or an alias of the one live model object, so dereferencing it yields that
object's current parameter values. -/
def bestModelParams {α : Type} (s : RunState α) : Option α :=
  if s.bestIsModel then some s.params else none

/-- The start offsets `range(0, total_timesteps - 1, bptt)` of the window loop
shared by `train` and `evaluate`: for a positive step, Python's `range` yields
`⌈(stop − start)/step⌉` values `0, bptt, 2·bptt, …` strictly below the bound. -/
def batch_starts (total_timesteps bptt : Nat) : List Nat :=
  List.range' 0 ((total_timesteps - 1 + bptt - 1) / bptt) bptt

/-- `evaluate(eval_model, data_source)` with window size `bptt`: run the window
loop under `torch.no_grad()`, accumulate
`total_loss += len(data) * criterion(output_flat, targets).item()`, and return
`total_loss / (len(data_source) - 1)`. The model's forward pass composed with
the criterion is the external sequence-encoder capability, abstracted as
`lossOf`. -/
def evaluate {α : Type} (eval_model : α)
    (lossOf : α → TokenMatrix → List Nat → ℚ) (bptt : Nat)
    (data_source : TokenMatrix) : ℚ :=
  ((batch_starts data_source.length bptt).foldl
    (fun acc i =>
      acc + ((get_batch bptt data_source i).1.length : ℚ) *
        lossOf eval_model (get_batch bptt data_source i).1
          (get_batch bptt data_source i).2)
    0) / ((data_source.length : ℚ) - 1)

/-- How many per-window report lines `train` prints in one epoch whose window
loop runs `n_batches` iterations: the body reports when
`batch % log_interval == 0 and batch > 0` for `batch = 0, 1, …`; in Python
`batch % 0` raises `ZeroDivisionError`, modelled as `none`. -/
def reportCount (n_batches log_interval : Nat) : Option Nat :=
  if log_interval = 0 then none
  else some (((List.range n_batches).filter
    fun b => decide (b % log_interval = 0 ∧ 0 < b)).length)

/-- `div_term` of `PositionalEncoding.__init__`: element `i` of
`torch.exp(torch.arange(0, d_model, 2).float() * (-math.log(10000.0) / d_model))`. -/
noncomputable def div_term (d_model i : Nat) : ℝ :=
  Real.exp ((2 * (i : ℝ)) * (-(Real.log 10000) / (d_model : ℝ)))

/-- The positional-encoding table `pe` of `PositionalEncoding.__init__` before
the shape-only `unsqueeze(0).transpose(0, 1)`:
`pe[:, 0::2] = torch.sin(position * div_term)` and
`pe[:, 1::2] = torch.cos(position * div_term)`, i.e. column `k` holds the sine
(for even `k`) or cosine (for odd `k`) at frequency index `k / 2`. The table
is registered as a buffer and never written again; here it is a pure function
of its arguments. -/
noncomputable def pe (d_model max_len : Nat) : List (List ℝ) :=
  (List.range max_len).map fun (p : Nat) => (List.range d_model).map fun (k : Nat) =>
    if k % 2 = 0 then Real.sin ((p : ℝ) * div_term d_model (k / 2))
    else Real.cos ((p : ℝ) * div_term d_model (k / 2))

end AttnTutorial

namespace AttnTutorial

/-! ### Generic list-of-rows indexing helpers -/

theorem getD_map_range {α : Type} (f : Nat → α) (d : α) {n i : Nat} (h : i < n) :
    ((List.range n).map f).getD i d = f i := by
  simp [List.getD_eq_getElem?_getD, List.getElem?_map, List.getElem?_range, h]

theorem getD_take_of_lt {α : Type} {l : List α} {n i : Nat} (h : i < n) (d : α) :
    (l.take n).getD i d = l.getD i d := by
  rw [List.getD_eq_getElem?_getD, List.getD_eq_getElem?_getD, List.getElem?_take,
    if_pos h]

theorem getD_drop {α : Type} (l : List α) (n i : Nat) (d : α) :
    (l.drop n).getD i d = l.getD (n + i) d := by
  rw [List.getD_eq_getElem?_getD, List.getD_eq_getElem?_getD, List.getElem?_drop]

theorem flatten_length_uniform {α : Type} {L : List (List α)} {B : Nat}
    (h : ∀ l ∈ L, l.length = B) : L.flatten.length = L.length * B := by
  induction L with
  | nil => simp
  | cons x xs ih =>
    simp only [List.flatten_cons, List.length_append, List.length_cons]
    rw [h x (by simp), ih (fun l hl => h l (by simp [hl]))]
    ring

theorem flatten_getD_uniform {α : Type} {L : List (List α)} {B : Nat}
    (h : ∀ l ∈ L, l.length = B) {t b : Nat} (ht : t < L.length) (hb : b < B) (d : α) :
    L.flatten.getD (t * B + b) d = (L.getD t []).getD b d := by
  induction L generalizing t with
  | nil => simp at ht
  | cons x xs ih =>
    cases t with
    | zero =>
      have hx : x.length = B := h x (by simp)
      simp only [List.flatten_cons, Nat.zero_mul, Nat.zero_add, List.getD_cons_zero]
      rw [List.getD_eq_getElem?_getD, List.getD_eq_getElem?_getD,
        List.getElem?_append_left (by omega)]
    | succ t' =>
      have hx : x.length = B := h x (by simp)
      simp only [List.flatten_cons, List.getD_cons_succ]
      have hidx : (t' + 1) * B + b = x.length + (t' * B + b) := by rw [hx]; ring
      rw [hidx, List.getD_eq_getElem?_getD, List.getElem?_append_right (by omega)]
      rw [Nat.add_sub_cancel_left, ← List.getD_eq_getElem?_getD]
      exact ih (fun l hl => h l (by simp [hl])) (by simpa using ht)

/-! ### Mask matrix helpers -/

theorem zipWith_map_same {α β γ δ : Type} (l : List α) (g : α → β)
    (h : α → γ) (f : β → γ → δ) :
    List.zipWith f (l.map g) (l.map h) = l.map fun x => f (g x) (h x) := by
  induction l with
  | nil => rfl
  | cons x xs ih => simp [ih]

theorem matMap_mkMat {α β : Type} (g : α → β) (n : Nat) (f : Nat → Nat → α) :
    matMap g (mkMat n f) = mkMat n fun i j => g (f i j) := by
  simp [matMap, mkMat, List.map_map, Function.comp]

theorem mkMat_entry {α : Type} {n i j : Nat} (f : Nat → Nat → α) (d : α)
    (hi : i < n) (hj : j < n) : ((mkMat n f).getD i []).getD j d = f i j := by
  rw [mkMat, getD_map_range _ _ hi, getD_map_range _ _ hj]

theorem transposeSq_mkMat {α : Type} (n : Nat) (d : α) (f : Nat → Nat → α) :
    transposeSq n d (mkMat n f) = mkMat n fun i j => f j i := by
  unfold transposeSq mkMat
  refine List.map_congr_left fun i hi => List.map_congr_left fun j hj => ?_
  rw [List.mem_range] at hi hj
  show ((mkMat n f).getD j []).getD i d = f j i
  exact mkMat_entry f d hj hi

theorem masked_fill_mkMat (n : Nat) (f : Nat → Nat → MaskVal)
    (c : Nat → Nat → Bool) (v : MaskVal) :
    masked_fill (mkMat n f) (mkMat n c) v =
      mkMat n fun i j => if c i j then v else f i j := by
  simp only [masked_fill, mkMat, zipWith_map_same]

/-- The generated mask in closed form: entry `(i, j)` is `0` when `j ≤ i` and
`-inf` when `j > i`. -/
theorem mask_normal (sz : Nat) :
    generate_square_subsequent_mask sz =
      mkMat sz fun i j => if j ≤ i then MaskVal.val 0 else MaskVal.negInf := by
  simp only [generate_square_subsequent_mask, triuOnes, matMap_mkMat,
    transposeSq_mkMat, masked_fill_mkMat]
  refine congrArg (mkMat sz) (funext fun i => funext fun j => ?_)
  by_cases hji : j ≤ i <;> simp [hji]

theorem mask_length (sz : Nat) : (generate_square_subsequent_mask sz).length = sz := by
  rw [mask_normal]; simp [mkMat]

/-- The invariant of the forward-call trace: once the cache holds the mask built
for some size `k` (recorded by the ghost component), every further sequence of
forward calls leaves it in the same shape for some size `k'`. -/
theorem runForwards_inv (calls : List Nat) (k : Nat) :
    ∃ k', runForwards (some (generate_square_subsequent_mask k), some k) calls =
      (some (generate_square_subsequent_mask k'), some k') := by
  induction calls generalizing k with
  | nil => exact ⟨k, rfl⟩
  | cons n rest ih =>
    show ∃ k', runForwards
      (forwardTrace (some (generate_square_subsequent_mask k), some k) n) rest = _
    by_cases hkn : k = n
    · have hRefresh : refreshTriggered (some (generate_square_subsequent_mask k)) n
          = false := by
        simp [refreshTriggered, mask_length, hkn]
      simpa [forwardTrace, forwardMaskUpdate, hRefresh] using ih k
    · have hRefresh : refreshTriggered (some (generate_square_subsequent_mask k)) n
          = true := by
        simp [refreshTriggered, mask_length, hkn]
      simpa [forwardTrace, forwardMaskUpdate, hRefresh] using ih n

/-! ### C3: the generated causal mask -/

/-- C3: for every size `n ≥ 1`, the generated causal mask is an `n × n` matrix
whose entry `(i, j)` is `0` when `j ≤ i` and `-inf` when `j > i`; generation is
deterministic — the mask is a pure function of `n`, so every call with the same
size yields an identical matrix. -/
theorem mask_spec (n : Nat) (hn : 1 ≤ n) :
    (generate_square_subsequent_mask n).length = n ∧
    (∀ row ∈ generate_square_subsequent_mask n, row.length = n) ∧
    (∀ i j, i < n → j < n →
      ((generate_square_subsequent_mask n).getD i []).getD j MaskVal.negInf =
        if j ≤ i then MaskVal.val 0 else MaskVal.negInf) ∧
    generate_square_subsequent_mask n = generate_square_subsequent_mask n := by
  simp only [mask_normal]
  refine ⟨by simp [mkMat], ?_, ?_, trivial⟩
  · intro row hrow
    simp only [mkMat, List.mem_map, List.mem_range] at hrow
    obtain ⟨i, _, rfl⟩ := hrow
    simp
  · intro i j hi hj
    exact mkMat_entry _ _ hi hj

/-- Witness for C3 at `n = 3`. -/
theorem mask_spec_witness :
    (1 ≤ 3) ∧
    ((generate_square_subsequent_mask 3).length = 3 ∧
     (∀ row ∈ generate_square_subsequent_mask 3, row.length = 3) ∧
     (∀ i j, i < 3 → j < 3 →
       ((generate_square_subsequent_mask 3).getD i []).getD j MaskVal.negInf =
         if j ≤ i then MaskVal.val 0 else MaskVal.negInf) ∧
     generate_square_subsequent_mask 3 = generate_square_subsequent_mask 3) :=
  ⟨by decide, mask_spec 3 (by decide)⟩

/-! ### C4: the mask cache in forward -/

/-- C4: the cached mask is rebuilt and replaced during `forward` exactly when no
mask is cached yet or the cached mask's size differs from the current input's
sequence length; when the sizes match, the cached mask is reused unchanged.
Invariant: after any nonempty sequence of forward calls starting from the fresh
model (`src_mask = None`), the cache holds exactly the mask generated for some
size `k` — the size recorded for the most recent refresh-triggering call (the
ghost second component) — and its dimension equals that `k`. -/
theorem mask_cache_spec :
    (∀ n, forwardMaskUpdate none n = some (generate_square_subsequent_mask n)) ∧
    (∀ m n, m.length ≠ n →
      forwardMaskUpdate (some m) n = some (generate_square_subsequent_mask n)) ∧
    (∀ m n, m.length = n → forwardMaskUpdate (some m) n = some m) ∧
    (∀ calls n, ∃ mk k,
      runForwards (none, none) (n :: calls) = (some mk, some k) ∧
      mk = generate_square_subsequent_mask k ∧ mk.length = k) := by
  refine ⟨fun n => rfl, ?_, ?_, ?_⟩
  · intro m n hmn
    simp [forwardMaskUpdate, refreshTriggered, hmn]
  · intro m n hmn
    simp [forwardMaskUpdate, refreshTriggered, hmn]
  · intro calls n
    have hstep : runForwards (none, none) (n :: calls) =
        runForwards (some (generate_square_subsequent_mask n), some n) calls := rfl
    obtain ⟨k', hk'⟩ := runForwards_inv calls n
    exact ⟨generate_square_subsequent_mask k', k', by rw [hstep, hk'], rfl, mask_length k'⟩

/-- Witness for C4: the refresh and reuse branches at concrete cache states,
and the invariant on a concrete call sequence. -/
theorem mask_cache_spec_witness :
    ((([[MaskVal.val 0]] : List (List MaskVal)).length ≠ 2) ∧
      forwardMaskUpdate (some [[MaskVal.val 0]]) 2 =
        some (generate_square_subsequent_mask 2)) ∧
    ((([[MaskVal.val 0]] : List (List MaskVal)).length = 1) ∧
      forwardMaskUpdate (some [[MaskVal.val 0]]) 1 = some [[MaskVal.val 0]]) ∧
    (∃ mk k, runForwards (none, none) (2 :: [2, 3]) = (some mk, some k) ∧
      mk = generate_square_subsequent_mask k ∧ mk.length = k) :=
  ⟨⟨by decide, mask_cache_spec.2.1 [[MaskVal.val 0]] 2 (by decide)⟩,
   ⟨by decide, mask_cache_spec.2.2.1 [[MaskVal.val 0]] 1 (by decide)⟩,
   mask_cache_spec.2.2.2 [2, 3] 2⟩

/-! ### Shape helpers for batchify and get_batch -/

theorem batchify_length (data : List Nat) (bsz : Nat) :
    (batchify data bsz).length = data.length / bsz := by
  simp [batchify]

theorem batchify_rows (data : List Nat) (bsz : Nat) :
    ∀ row ∈ batchify data bsz, row.length = bsz := by
  intro row hrow
  simp only [batchify, List.mem_map, List.mem_range] at hrow
  obtain ⟨t, _, rfl⟩ := hrow
  simp

theorem get_batch_lengths (bptt : Nat) (source : TokenMatrix) (B i : Nat)
    (hw : ∀ row ∈ source, row.length = B) :
    (get_batch bptt source i).1.length = min bptt (source.length - 1 - i) ∧
    (get_batch bptt source i).2.length = min bptt (source.length - 1 - i) * B := by
  have hwin : ∀ l ∈ (source.drop (i + 1)).take (min bptt (source.length - 1 - i)),
      l.length = B := fun l hl => hw l (List.drop_subset _ _ (List.take_subset _ _ hl))
  constructor
  · simp only [get_batch, List.length_take, List.length_drop]
    omega
  · simp only [get_batch]
    rw [flatten_length_uniform hwin]
    simp only [List.length_take, List.length_drop]
    congr 1
    omega

/-! ### C1: batchify -/

/-- C1: for every flat integer token sequence of length `L` and every positive
`batch_columns` `B`, `batchify` returns a matrix of shape `⌊L/B⌋ × B` whose
entry at row `t`, column `b` equals input element `b·⌊L/B⌋ + t`; the trailing
remainder is dropped from the end with no wraparound or padding (the indices
`b·⌊L/B⌋ + t` range exactly over the first `⌊L/B⌋·B` input positions). -/
theorem batchify_spec (data : List Nat) (B : Nat) (hB : 0 < B) :
    (batchify data B).length = data.length / B ∧
    (∀ row ∈ batchify data B, row.length = B) ∧
    (∀ t b, t < data.length / B → b < B →
      ((batchify data B).getD t []).getD b 0 =
        data.getD (b * (data.length / B) + t) 0) := by
  refine ⟨by simp [batchify], ?_, ?_⟩
  · intro row hrow
    simp only [batchify, List.mem_map, List.mem_range] at hrow
    obtain ⟨t, _, rfl⟩ := hrow
    simp
  · intro t b ht hb
    have hidx : b * (data.length / B) + t < (data.length / B) * B := by
      have hb' : b + 1 ≤ B := hb
      calc b * (data.length / B) + t < b * (data.length / B) + data.length / B := by omega
        _ = (b + 1) * (data.length / B) := by ring
        _ ≤ B * (data.length / B) := Nat.mul_le_mul_right _ hb'
        _ = (data.length / B) * B := Nat.mul_comm _ _
    simp only [batchify]
    rw [getD_map_range _ _ ht, getD_map_range _ _ hb, getD_map_range _ _ hb,
      getD_take_of_lt ht, getD_drop, getD_take_of_lt hidx]

/-- Witness for C1 at a concrete input. -/
theorem batchify_spec_witness :
    (0 < 2) ∧
    ((batchify (List.range 6) 2).length = (List.range 6).length / 2 ∧
     (∀ row ∈ batchify (List.range 6) 2, row.length = 2) ∧
     (∀ t b, t < (List.range 6).length / 2 → b < 2 →
       ((batchify (List.range 6) 2).getD t []).getD b 0 =
         (List.range 6).getD (b * ((List.range 6).length / 2) + t) 0)) :=
  ⟨by decide, batchify_spec (List.range 6) 2 (by decide)⟩

/-! ### C2: get_batch -/

/-- C2: for every source matrix with `T` timesteps and uniform row width `B`,
every start offset `i` with `0 ≤ i ≤ T−2` and every window size `W`
(`bptt`), `get_batch` returns data of length `seq_len = min(W, T−1−i)`
starting at row `i`, and a target that is rows `i+1 .. i+seq_len` flattened in
time-major order: `target[t·B + b] = source[i+1+t, b]` for all valid `t, b`. -/
theorem get_batch_spec (bptt : Nat) (source : TokenMatrix) (B i : Nat)
    (hw : ∀ row ∈ source, row.length = B) (hi : i + 2 ≤ source.length) :
    (get_batch bptt source i).1.length = min bptt (source.length - 1 - i) ∧
    (∀ t, t < min bptt (source.length - 1 - i) →
      (get_batch bptt source i).1.getD t [] = source.getD (i + t) []) ∧
    (get_batch bptt source i).2.length = min bptt (source.length - 1 - i) * B ∧
    (∀ t b, t < min bptt (source.length - 1 - i) → b < B →
      (get_batch bptt source i).2.getD (t * B + b) 0 =
        (source.getD (i + 1 + t) []).getD b 0) := by
  have hwin : ∀ l ∈ (source.drop (i + 1)).take (min bptt (source.length - 1 - i)),
      l.length = B := fun l hl => hw l (List.drop_subset _ _ (List.take_subset _ _ hl))
  have hlen : ((source.drop (i + 1)).take (min bptt (source.length - 1 - i))).length
      = min bptt (source.length - 1 - i) := by
    simp only [List.length_take, List.length_drop]
    omega
  refine ⟨?_, ?_, ?_, ?_⟩
  · simp only [get_batch, List.length_take, List.length_drop]
    omega
  · intro t ht
    simp only [get_batch]
    rw [getD_take_of_lt ht, getD_drop]
  · simp only [get_batch]
    rw [flatten_length_uniform hwin, hlen]
  · intro t b ht hb
    simp only [get_batch]
    rw [flatten_getD_uniform hwin (by omega) hb, getD_take_of_lt ht, getD_drop]

/-- Witness for C2 at a concrete input. -/
theorem get_batch_spec_witness :
    ((∀ row ∈ ([[0, 3], [1, 4], [2, 5]] : TokenMatrix), row.length = 2) ∧
      0 + 2 ≤ ([[0, 3], [1, 4], [2, 5]] : TokenMatrix).length) ∧
    ((get_batch 2 [[0, 3], [1, 4], [2, 5]] 0).1.length =
        min 2 (([[0, 3], [1, 4], [2, 5]] : TokenMatrix).length - 1 - 0) ∧
     (∀ t, t < min 2 (([[0, 3], [1, 4], [2, 5]] : TokenMatrix).length - 1 - 0) →
       (get_batch 2 [[0, 3], [1, 4], [2, 5]] 0).1.getD t [] =
         ([[0, 3], [1, 4], [2, 5]] : TokenMatrix).getD (0 + t) []) ∧
     (get_batch 2 [[0, 3], [1, 4], [2, 5]] 0).2.length =
        min 2 (([[0, 3], [1, 4], [2, 5]] : TokenMatrix).length - 1 - 0) * 2 ∧
     (∀ t b, t < min 2 (([[0, 3], [1, 4], [2, 5]] : TokenMatrix).length - 1 - 0) →
        b < 2 →
       (get_batch 2 [[0, 3], [1, 4], [2, 5]] 0).2.getD (t * 2 + b) 0 =
         (([[0, 3], [1, 4], [2, 5]] : TokenMatrix).getD (0 + 1 + t) []).getD b 0)) :=
  ⟨⟨by decide, by decide⟩, get_batch_spec 2 [[0, 3], [1, 4], [2, 5]] 2 0 (by decide) (by decide)⟩

/-! ### Epoch-loop helpers -/

theorem epochStep_lr {α : Type} (trainF : ℚ → α → α) (evalF : α → ℚ)
    (gamma : ℚ) (s : RunState α) (e : Nat) :
    (epochStep trainF evalF gamma s e).lr = s.lr * gamma := by
  unfold epochStep
  by_cases h : ((evalF (trainF s.lr s.params)) : WithTop ℚ) < s.bestVal <;> simp [h]

theorem epochStep_summaries {α : Type} (trainF : ℚ → α → α) (evalF : α → ℚ)
    (gamma : ℚ) (s : RunState α) (e : Nat) :
    (epochStep trainF evalF gamma s e).summaries = s.summaries + 1 := by
  unfold epochStep
  by_cases h : ((evalF (trainF s.lr s.params)) : WithTop ℚ) < s.bestVal <;> simp [h]

theorem foldl_epochStep_lr {α : Type} (trainF : ℚ → α → α) (evalF : α → ℚ)
    (gamma : ℚ) :
    ∀ (l : List Nat) (s : RunState α),
      (l.foldl (fun st e => epochStep trainF evalF gamma st e) s).lr =
        s.lr * gamma ^ l.length := by
  intro l
  induction l with
  | nil => intro s; simp
  | cons e rest ih =>
    intro s
    rw [List.foldl_cons, ih, epochStep_lr, List.length_cons, pow_succ]
    ring

theorem foldl_epochStep_bestIsModel {α : Type} (trainF : ℚ → α → α)
    (evalF : α → ℚ) (gamma : ℚ) :
    ∀ (l : List Nat) (s : RunState α), s.bestIsModel = true →
      (l.foldl (fun st e => epochStep trainF evalF gamma st e) s).bestIsModel
        = true := by
  intro l
  induction l with
  | nil => intro s h; exact h
  | cons e rest ih =>
    intro s h
    rw [List.foldl_cons]
    refine ih _ ?_
    unfold epochStep
    by_cases hc : ((evalF (trainF s.lr s.params)) : WithTop ℚ) < s.bestVal <;>
      simp [hc, h]

theorem epochStep_init_bestIsModel {α : Type} (trainF : ℚ → α → α)
    (evalF : α → ℚ) (gamma lr0 : ℚ) (p0 : α) (e : Nat) :
    (epochStep trainF evalF gamma (initState lr0 p0) e).bestIsModel = true := by
  unfold epochStep initState
  simp

/-! ### C5: learning-rate schedule -/

/-- C5: for every run with initial learning rate `lr0` and per-epoch decay
factor `gamma`, the learning rate in effect during epoch `e` (the state after
`e − 1` completed epochs) equals `lr0 · gamma^(e−1)`; the decay is applied
unconditionally after every epoch — the result is independent of the
validation outcomes `evalF` and of the training dynamics `trainF`. -/
theorem lr_schedule_spec (α : Type) (trainF : ℚ → α → α) (evalF : α → ℚ)
    (gamma lr0 : ℚ) (p0 : α) (e : Nat) (he : 1 ≤ e) :
    (runEpochs trainF evalF gamma (initState lr0 p0) (e - 1)).lr =
      lr0 * gamma ^ (e - 1) := by
  unfold runEpochs
  rw [foldl_epochStep_lr, List.length_range']
  rfl

/-- Witness for C5 at epoch 3. -/
theorem lr_schedule_spec_witness :
    (1 ≤ 3) ∧
    (runEpochs (fun _ p => p) (fun _ => (0 : ℚ)) (1/2)
        (initState 4 (0 : Nat)) (3 - 1)).lr = 4 * (1/2 : ℚ) ^ (3 - 1) :=
  ⟨by decide,
   lr_schedule_spec Nat (fun _ p => p) (fun _ => (0 : ℚ)) (1/2) 4 0 3 (by decide)⟩

/-! ### C6: best-model update rule -/

/-- C6: in the epoch loop, the best-model record (`best_model`, here observed
through `bestEpoch`/`bestIsModel`) and the best-loss value are updated exactly
when the epoch's validation loss is strictly below the best seen so far; and
after the first epoch the current model is always recorded as the initial best
(any finite validation loss is strictly below the initial
`best_val_loss = inf`), regardless of its value. -/
theorem best_model_update_spec :
    (∀ (α : Type) (trainF : ℚ → α → α) (evalF : α → ℚ) (gamma : ℚ)
        (s : RunState α) (e : Nat), s.bestEpoch ≠ some e →
      (((epochStep trainF evalF gamma s e).bestVal =
          ((evalF (trainF s.lr s.params) : ℚ) : WithTop ℚ) ∧
        (epochStep trainF evalF gamma s e).bestEpoch = some e ∧
        (epochStep trainF evalF gamma s e).bestIsModel = true) ↔
        ((evalF (trainF s.lr s.params) : ℚ) : WithTop ℚ) < s.bestVal)) ∧
    (∀ (α : Type) (trainF : ℚ → α → α) (evalF : α → ℚ) (gamma lr0 : ℚ) (p0 : α),
      (runEpochs trainF evalF gamma (initState lr0 p0) 1).bestEpoch = some 1 ∧
      (runEpochs trainF evalF gamma (initState lr0 p0) 1).bestIsModel = true ∧
      (runEpochs trainF evalF gamma (initState lr0 p0) 1).bestVal =
        ((evalF (trainF lr0 p0) : ℚ) : WithTop ℚ)) := by
  constructor
  · intro α trainF evalF gamma s e hne
    by_cases h : ((evalF (trainF s.lr s.params) : ℚ) : WithTop ℚ) < s.bestVal
    · simp [epochStep, h]
    · simp only [epochStep, h, if_false, iff_false]
      intro hcon
      exact hne hcon.2.1
  · intro α trainF evalF gamma lr0 p0
    have hr : List.range' 1 1 = [1] := rfl
    unfold runEpochs
    rw [hr]
    simp [epochStep, initState]

/-- Witness for C6's update rule at a concrete state. -/
theorem best_model_update_spec_witness :
    ((⟨0, 1, ⊤, false, none, 0⟩ : RunState Nat).bestEpoch ≠ some 1) ∧
    (((epochStep (fun (_ : ℚ) (p : Nat) => p + 1) (fun (p : Nat) => (p : ℚ)) (1/2)
          (⟨0, 1, ⊤, false, none, 0⟩ : RunState Nat) 1).bestVal =
        (((0 + 1 : Nat) : ℚ) : WithTop ℚ) ∧
      (epochStep (fun (_ : ℚ) (p : Nat) => p + 1) (fun (p : Nat) => (p : ℚ)) (1/2)
          (⟨0, 1, ⊤, false, none, 0⟩ : RunState Nat) 1).bestEpoch = some 1 ∧
      (epochStep (fun (_ : ℚ) (p : Nat) => p + 1) (fun (p : Nat) => (p : ℚ)) (1/2)
          (⟨0, 1, ⊤, false, none, 0⟩ : RunState Nat) 1).bestIsModel = true) ↔
      (((0 + 1 : Nat) : ℚ) : WithTop ℚ) <
        (⟨0, 1, ⊤, false, none, 0⟩ : RunState Nat).bestVal) :=
  ⟨by decide,
   best_model_update_spec.1 Nat (fun _ p => p + 1) (fun p => (p : ℚ)) (1/2)
     ⟨0, 1, ⊤, false, none, 0⟩ 1 (by decide)⟩

/-! ### C10: best_model aliases the live model -/

/-- C10: `best_model = model` stores a reference to the live model object, not
a copy of its state. Hence after any run of at least one epoch, `best_model`
is recorded (the first epoch always records it) and dereferencing it yields
the parameters after the final epoch's training step — so the final test-split
evaluation runs with the final-epoch weights even when an earlier epoch
achieved the lowest validation loss (`evalF` and `trainF` are arbitrary, so
this covers runs whose best validation loss occurred at any earlier epoch). -/
theorem best_model_alias_spec (α : Type) (trainF : ℚ → α → α) (evalF : α → ℚ)
    (gamma lr0 : ℚ) (p0 : α) (n : Nat) (hn : 1 ≤ n) :
    (runEpochs trainF evalF gamma (initState lr0 p0) n).bestIsModel = true ∧
    bestModelParams (runEpochs trainF evalF gamma (initState lr0 p0) n) =
      some (runEpochs trainF evalF gamma (initState lr0 p0) n).params := by
  obtain ⟨m, rfl⟩ : ∃ m, n = m + 1 := ⟨n - 1, by omega⟩
  have hr : List.range' 1 (m + 1) = 1 :: List.range' 2 m := rfl
  have htrue :
      (runEpochs trainF evalF gamma (initState lr0 p0) (m + 1)).bestIsModel
        = true := by
    unfold runEpochs
    rw [hr, List.foldl_cons]
    exact foldl_epochStep_bestIsModel trainF evalF gamma _ _
      (epochStep_init_bestIsModel trainF evalF gamma lr0 p0 1)
  exact ⟨htrue, by rw [bestModelParams, if_pos htrue]⟩

/-- Witness for C10: two epochs whose validation loss strictly increases, so
the best validation loss is achieved at epoch 1, yet the dereferenced
`best_model` parameters are the final ones. -/
theorem best_model_alias_spec_witness :
    (1 ≤ 2) ∧
    ((runEpochs (fun (_ : ℚ) (p : Nat) => p + 1) (fun (p : Nat) => (p : ℚ)) (1/2)
        (initState 5 (0 : Nat)) 2).bestIsModel = true ∧
     bestModelParams (runEpochs (fun (_ : ℚ) (p : Nat) => p + 1)
        (fun (p : Nat) => (p : ℚ)) (1/2) (initState 5 (0 : Nat)) 2) =
       some (runEpochs (fun (_ : ℚ) (p : Nat) => p + 1) (fun (p : Nat) => (p : ℚ))
        (1/2) (initState 5 (0 : Nat)) 2).params) :=
  ⟨by decide,
   best_model_alias_spec Nat (fun _ p => p + 1) (fun p => (p : ℚ)) (1/2) 5 0 2
     (by decide)⟩

/-! ### Window-loop helpers -/

theorem foldl_add_map_general {α : Type} (f : α → ℚ) :
    ∀ (l : List α) (a : ℚ),
      l.foldl (fun acc x => acc + f x) a = a + (l.map f).sum := by
  intro l
  induction l with
  | nil => intro a; simp
  | cons x xs ih => intro a; rw [List.foldl_cons, ih]; simp; ring

/-- Every start offset produced by the window loop lies strictly below
`total_timesteps − 1`, as in Python's `range(0, T - 1, bptt)`. -/
theorem batch_starts_lt {T bptt i : Nat} (hb : 0 < bptt) (hT : 2 ≤ T)
    (hi : i ∈ batch_starts T bptt) : i < T - 1 := by
  unfold batch_starts at hi
  rw [List.mem_range'] at hi
  obtain ⟨k, hk, rfl⟩ := hi
  have h2 : (k + 1) * bptt ≤ T - 1 + bptt - 1 :=
    (Nat.le_div_iff_mul_le hb).mp hk
  rw [Nat.succ_mul] at h2
  have hcomm : 0 + bptt * k = k * bptt := by ring
  rw [hcomm]
  generalize k * bptt = q at h2 ⊢
  omega

/-! ### C7: evaluate -/

/-- C7: for every data matrix with `T ≥ 2` timesteps, `evaluate` iterates all
windows of the loop `range(0, T - 1, bptt)` in sequence, accumulates the sum
over windows of (window length × window loss), and returns that sum divided by
`T − 1`; every window in the loop is nonempty and its length is
`min(bptt, T − 1 − i)`. The loop executes under `torch.no_grad()` and touches
no model state: `evaluate` is a pure function of the model parameters
`eval_model`, which are passed through unchanged. -/
theorem evaluate_spec (α : Type) (eval_model : α)
    (lossOf : α → TokenMatrix → List Nat → ℚ) (bptt : Nat)
    (data_source : TokenMatrix) (hb : 0 < bptt) (hT : 2 ≤ data_source.length) :
    evaluate eval_model lossOf bptt data_source =
      ((batch_starts data_source.length bptt).map fun i =>
        ((get_batch bptt data_source i).1.length : ℚ) *
          lossOf eval_model (get_batch bptt data_source i).1
            (get_batch bptt data_source i).2).sum /
        ((data_source.length : ℚ) - 1) ∧
    (∀ i ∈ batch_starts data_source.length bptt,
      (get_batch bptt data_source i).1.length =
        min bptt (data_source.length - 1 - i) ∧
      1 ≤ (get_batch bptt data_source i).1.length) := by
  constructor
  · unfold evaluate
    rw [foldl_add_map_general (fun i =>
      ((get_batch bptt data_source i).1.length : ℚ) *
        lossOf eval_model (get_batch bptt data_source i).1
          (get_batch bptt data_source i).2)]
    rw [zero_add]
  · intro i hi
    have hlt := batch_starts_lt hb hT hi
    constructor
    · simp only [get_batch, List.length_take, List.length_drop]
      omega
    · simp only [get_batch, List.length_take, List.length_drop]
      omega

/-- Witness for C7 at a concrete matrix and loss capability. -/
theorem evaluate_spec_witness :
    (0 < 2 ∧ 2 ≤ ([[0], [1], [2]] : TokenMatrix).length) ∧
    (evaluate (0 : Nat) (fun _ _ _ => (1 : ℚ)) 2 [[0], [1], [2]] =
      ((batch_starts ([[0], [1], [2]] : TokenMatrix).length 2).map fun i =>
        ((get_batch 2 [[0], [1], [2]] i).1.length : ℚ) *
          (fun (_ : Nat) (_ : TokenMatrix) (_ : List Nat) => (1 : ℚ)) 0
            (get_batch 2 [[0], [1], [2]] i).1
            (get_batch 2 [[0], [1], [2]] i).2).sum /
        ((([[0], [1], [2]] : TokenMatrix).length : ℚ) - 1) ∧
     (∀ i ∈ batch_starts ([[0], [1], [2]] : TokenMatrix).length 2,
       (get_batch 2 [[0], [1], [2]] i).1.length =
         min 2 (([[0], [1], [2]] : TokenMatrix).length - 1 - i) ∧
       1 ≤ (get_batch 2 [[0], [1], [2]] i).1.length)) :=
  ⟨⟨by decide, by decide⟩,
   evaluate_spec Nat 0 (fun _ _ _ => (1 : ℚ)) 2 [[0], [1], [2]]
     (by decide) (by decide)⟩

/-! ### C8: end-to-end scenario -/

/-- C8 counterexample: in the scenario of a 1000-token corpus with
`batch_columns = 10` and `window_size = 5`, running the report check with
`log_interval = 0` does not emit 19 window reports: `batch % 0` is a Python
`ZeroDivisionError` (modelled as `none`), so no report count is produced at
all. -/
theorem scenario_zero_log_interval :
    reportCount (batch_starts (batchify (List.range 1000) 10).length 5).length 0
      = none ∧
    reportCount (batch_starts (batchify (List.range 1000) 10).length 5).length 0
      ≠ some 19 := by
  constructor <;> simp [reportCount]

/-- C8 (amended): for a corpus of 1000 tokens with `batch_columns = 10` and
`window_size = 5`, the batched token matrix has shape `100 × 10`, the first
window's data has shape `5 × 10` and its target has length 50, and the window
loop runs 20 windows; training for 1 epoch with `log_interval = 1` (the
smallest interval, reporting at every window whose index passes `batch > 0`)
emits exactly 19 window reports — window index 0 is never reported — plus one
epoch summary. (`log_interval = 0` is not usable: `batch % 0` raises
`ZeroDivisionError`.) -/
theorem end_to_end_scenario (corpus : List Nat) (α : Type) (trainF : ℚ → α → α)
    (evalF : α → ℚ) (gamma lr0 : ℚ) (p0 : α) (hc : corpus.length = 1000) :
    (batchify corpus 10).length = 100 ∧
    (∀ row ∈ batchify corpus 10, row.length = 10) ∧
    (get_batch 5 (batchify corpus 10) 0).1.length = 5 ∧
    (get_batch 5 (batchify corpus 10) 0).2.length = 50 ∧
    (batch_starts (batchify corpus 10).length 5).length = 20 ∧
    reportCount (batch_starts (batchify corpus 10).length 5).length 1 = some 19 ∧
    (runEpochs trainF evalF gamma (initState lr0 p0) 1).summaries = 1 := by
  have hlen : (batchify corpus 10).length = 100 := by
    rw [batchify_length, hc]
  have hrows := batchify_rows corpus 10
  have hl := get_batch_lengths 5 (batchify corpus 10) 10 0 hrows
  have hstarts : (batch_starts (batchify corpus 10).length 5).length = 20 := by
    rw [hlen]
    unfold batch_starts
    rw [List.length_range']
  refine ⟨hlen, hrows, ?_, ?_, hstarts, ?_, ?_⟩
  · rw [hl.1, hlen]
    decide
  · rw [hl.2, hlen]
    decide
  · rw [hstarts]
    decide
  · have hr : List.range' 1 1 = [1] := rfl
    unfold runEpochs
    rw [hr, List.foldl_cons, List.foldl_nil, epochStep_summaries]
    rfl

/-- Witness for C8 (amended) at the concrete corpus `0, 1, …, 999`. -/
theorem end_to_end_scenario_witness :
    ((List.range 1000).length = 1000) ∧
    ((batchify (List.range 1000) 10).length = 100 ∧
     (∀ row ∈ batchify (List.range 1000) 10, row.length = 10) ∧
     (get_batch 5 (batchify (List.range 1000) 10) 0).1.length = 5 ∧
     (get_batch 5 (batchify (List.range 1000) 10) 0).2.length = 50 ∧
     (batch_starts (batchify (List.range 1000) 10).length 5).length = 20 ∧
     reportCount (batch_starts (batchify (List.range 1000) 10).length 5).length 1
       = some 19 ∧
     (runEpochs (fun (_ : ℚ) (p : Nat) => p) (fun (_ : Nat) => (0 : ℚ)) 1
        (initState 1 (0 : Nat)) 1).summaries = 1) :=
  ⟨by simp,
   end_to_end_scenario (List.range 1000) Nat (fun _ p => p) (fun _ => 0) 1 1 0
     (by simp)⟩

/-! ### C9: positional encoding table -/

/-- C9: for every even `embedding_dim` (`d_model`), every position
`p < max_len` and every frequency index `i < d_model / 2`, the table satisfies
`pe[p, 2i] = sin(p · div)` and `pe[p, 2i+1] = cos(p · div)` with
`div = exp(−ln(10000) · 2i / d_model)`; consequently
`pe[p, 2i]² + pe[p, 2i+1]² = 1` (exactly, in the real-number model). The table
is a pure function of `(d_model, max_len)`, matching its construction once at
module init with no later mutation. -/
theorem positional_encoding_spec (d_model max_len p i : Nat)
    (hd : d_model % 2 = 0) (hp : p < max_len) (hi : i < d_model / 2) :
    ((pe d_model max_len).getD p []).getD (2 * i) 0 =
      Real.sin ((p : ℝ) *
        Real.exp (-(Real.log 10000) * (2 * (i : ℝ)) / (d_model : ℝ))) ∧
    ((pe d_model max_len).getD p []).getD (2 * i + 1) 0 =
      Real.cos ((p : ℝ) *
        Real.exp (-(Real.log 10000) * (2 * (i : ℝ)) / (d_model : ℝ))) ∧
    ((pe d_model max_len).getD p []).getD (2 * i) 0 ^ 2 +
      ((pe d_model max_len).getD p []).getD (2 * i + 1) 0 ^ 2 = 1 := by
  have h2i : 2 * i < d_model := by omega
  have h2i1 : 2 * i + 1 < d_model := by omega
  have hdiv : div_term d_model i =
      Real.exp (-(Real.log 10000) * (2 * (i : ℝ)) / (d_model : ℝ)) := by
    unfold div_term
    exact congrArg Real.exp (by ring)
  have heven : ((pe d_model max_len).getD p []).getD (2 * i) 0 =
      Real.sin ((p : ℝ) * div_term d_model i) := by
    unfold pe
    rw [getD_map_range _ _ hp, getD_map_range _ _ h2i]
    have hmod : 2 * i % 2 = 0 := by omega
    have hdiv2 : 2 * i / 2 = i := by omega
    rw [if_pos hmod, hdiv2]
  have hodd : ((pe d_model max_len).getD p []).getD (2 * i + 1) 0 =
      Real.cos ((p : ℝ) * div_term d_model i) := by
    unfold pe
    rw [getD_map_range _ _ hp, getD_map_range _ _ h2i1]
    have hmod : ¬((2 * i + 1) % 2 = 0) := by omega
    have hdiv2 : (2 * i + 1) / 2 = i := by omega
    rw [if_neg hmod, hdiv2]
  refine ⟨by rw [heven, hdiv], by rw [hodd, hdiv], ?_⟩
  rw [heven, hodd]
  exact Real.sin_sq_add_cos_sq _

/-- Witness for C9 at `d_model = 2`, `max_len = 1`, `p = 0`, `i = 0`. -/
theorem positional_encoding_spec_witness :
    (2 % 2 = 0 ∧ 0 < 1 ∧ 0 < 2 / 2) ∧
    (((pe 2 1).getD 0 []).getD (2 * 0) 0 =
       Real.sin (((0 : Nat) : ℝ) *
         Real.exp (-(Real.log 10000) * (2 * ((0 : Nat) : ℝ)) / ((2 : Nat) : ℝ))) ∧
     ((pe 2 1).getD 0 []).getD (2 * 0 + 1) 0 =
       Real.cos (((0 : Nat) : ℝ) *
         Real.exp (-(Real.log 10000) * (2 * ((0 : Nat) : ℝ)) / ((2 : Nat) : ℝ))) ∧
     ((pe 2 1).getD 0 []).getD (2 * 0) 0 ^ 2 +
       ((pe 2 1).getD 0 []).getD (2 * 0 + 1) 0 ^ 2 = 1) :=
  ⟨⟨by decide, by decide, by decide⟩,
   positional_encoding_spec 2 1 0 0 (by decide) (by decide) (by decide)⟩

end AttnTutorial
